import Mathlib

set_option autoImplicit false

/-!
Verification development for the mbbolt / rbolt repository.

The embedded B+tree engine (bbolt) is an external collaborator; buckets are
modelled as association lists from string keys to byte strings together with
a sequence counter, per the engine contract the code relies on.  Byte slices
are modelled as `List Nat`.  All definitions below are transcribed from the
repository source (`tx.go`, the DB facade, `cache.go`-level `Cache[T]`, the
rbolt server and client, `multi.go`); doc comments cite the functions they
embed.
-/

namespace Mbbolt

/-- Byte strings; Go `[]byte` up to value equality (nil ≈ empty). -/
abbrev Bytes := List Nat

/-- First-match association-list lookup; models a Go map read. -/
def lookupA {α : Type} : List (String × α) → String → Option α
  | [], _ => none
  | (k2, v) :: rest, k => if k2 = k then some v else lookupA rest k

/-- Association-list insert/replace; models a Go map write. -/
def insertA {α : Type} : List (String × α) → String → α → List (String × α)
  | [], k, v => [(k, v)]
  | (k2, v2) :: rest, k, v =>
    if k2 = k then (k2, v) :: rest else (k2, v2) :: insertA rest k v

/-- Association-list removal of every binding of a key; models a Go map delete. -/
def removeA {α : Type} : List (String × α) → String → List (String × α)
  | [], _ => []
  | (k2, v2) :: rest, k =>
    if k2 = k then removeA rest k else (k2, v2) :: removeA rest k

/-- In-place modification of the value bound to a key, when present. -/
def modifyA {α : Type} : List (String × α) → String → (α → α) → List (String × α)
  | [], _, _ => []
  | (k2, v2) :: rest, k, f =>
    if k2 = k then (k2, f v2) :: rest else (k2, v2) :: modifyA rest k f

theorem lookupA_insertA_self {α : Type} (l : List (String × α)) (k : String) (v : α) :
    lookupA (insertA l k v) k = some v := by
  induction l with
  | nil => simp [insertA, lookupA]
  | cons hd tl ih =>
    obtain ⟨k2, v2⟩ := hd
    by_cases h : k2 = k <;> simp [insertA, lookupA, h, ih]

theorem lookupA_removeA_self {α : Type} (l : List (String × α)) (k : String) :
    lookupA (removeA l k) k = none := by
  induction l with
  | nil => simp [removeA, lookupA]
  | cons hd tl ih =>
    obtain ⟨k2, v2⟩ := hd
    by_cases h : k2 = k <;> simp [removeA, lookupA, h, ih]

theorem lookupA_insertA_ne {α : Type} (l : List (String × α)) (k k2 : String) (v : α)
    (h : k2 ≠ k) : lookupA (insertA l k v) k2 = lookupA l k2 := by
  induction l with
  | nil => simp [insertA, lookupA, Ne.symm h]
  | cons hd tl ih =>
    obtain ⟨k3, v3⟩ := hd
    by_cases h3 : k3 = k
    · subst h3
      simp [insertA, lookupA, Ne.symm h]
    · simp only [insertA, if_neg h3, lookupA]
      by_cases h4 : k3 = k2 <;> simp [h4, ih]

theorem lookupA_modifyA {α : Type} (l : List (String × α)) (k : String) (f : α → α) :
    lookupA (modifyA l k f) k = (lookupA l k).map f := by
  induction l with
  | nil => simp [modifyA, lookupA]
  | cons hd tl ih =>
    obtain ⟨k2, v2⟩ := hd
    by_cases h : k2 = k <;> simp [modifyA, lookupA, h, ih]

/-! ## The engine model

A bucket holds key/value byte pairs and a sequence counter.  Modelled from the
spec: the engine is the out-of-scope bbolt collaborator; a bucket is "a named
mapping from byte-string key to byte-string value, plus a monotonically
increasing 64-bit sequence counter", created lazily with a zero counter. -/

structure Bucket where
  seq : Nat
  data : List (String × Bytes)
  deriving Repr, DecidableEq

/-- The engine state of one database file: its named buckets. -/
abbrev Engine := List (String × Bucket)

/-- Engine `CreateBucketIfNotExists`: lazily creates an empty bucket with a
zero sequence counter. -/
def createBucketIfNotExists (e : Engine) (bucket : String) : Engine :=
  match lookupA e bucket with
  | some _ => e
  | none => insertA e bucket ⟨0, []⟩

/-- The raw bytes the engine holds for `bucket/key`, if any. -/
def getStored (e : Engine) (bucket key : String) : Option Bytes :=
  (lookupA e bucket).bind fun b => lookupA b.data key

/-- Engine effect of `DB.PutBytes` (part_013): create the bucket if absent,
then `b.Put(key, val)`.  The `useBatch` toggle selects `Update` vs `Batch`,
which coalesce identically in this sequential model. -/
def enginePutBytes (e : Engine) (bucket key : String) (val : Bytes) : Engine :=
  modifyA (createBucketIfNotExists e bucket) bucket
    (fun b => { b with data := insertA b.data key val })

/-- Engine effect of `Tx.Delete` (tx.go): missing bucket leaves the engine
unchanged (the caller gets `ErrBucketNotFound`); otherwise `b.Delete(key)`. -/
def engineDelete (e : Engine) (bucket key : String) : Engine :=
  match lookupA e bucket with
  | none => e
  | some _ => modifyA e bucket (fun b => { b with data := removeA b.data key })

theorem lookupA_createBucket_self (e : Engine) (bucket : String) :
    lookupA (createBucketIfNotExists e bucket) bucket =
      some ((lookupA e bucket).getD ⟨0, []⟩) := by
  unfold createBucketIfNotExists
  cases h : lookupA e bucket with
  | none => simp [lookupA_insertA_self]
  | some b => simp [h]

theorem getStored_enginePutBytes_self (e : Engine) (bucket key : String) (val : Bytes) :
    getStored (enginePutBytes e bucket key val) bucket key = some val := by
  unfold getStored enginePutBytes
  rw [lookupA_modifyA, lookupA_createBucket_self]
  simp [lookupA_insertA_self]

/-! ## The typed DB facade (part_013 / tx.go) -/

/-- Errors surfaced by the DB facade. -/
inductive DBErr where
  | bucketNotFound
  | marshalFailed
  | unmarshalFailed
  deriving Repr, DecidableEq

/-- A value passed to `Put(bucket, key, val any)`: either already a byte
slice, or an arbitrary object of type `T` to be marshaled. -/
inductive Val (T : Type) where
  | bytes (b : Bytes)
  | obj (o : T)
  deriving Repr, DecidableEq

/-- `MarshalFn`: `func(any) ([]byte, error)`. -/
abbrev MarshalFn (T : Type) := T → Except Unit Bytes

/-- `UnmarshalFn`: `func([]byte, any) error`, producing the decoded object. -/
abbrev UnmarshalFn (T : Type) := Bytes → Except Unit T

/-- What `Get` returns, depending on the `out` pointer the caller passed:
`*[]byte` gets a clone of the raw bytes, anything else goes through the
unmarshaler. -/
inductive GetOut (T : Type) where
  | bytes (b : Bytes)
  | obj (o : T)
  deriving Repr, DecidableEq

/-- The typed `DB` struct of part_013: an engine plus an optional
marshal/unmarshal pair (`nil` falls back to the JSON defaults). -/
structure DBState (T : Type) where
  engine : Engine
  marshalFn : Option (MarshalFn T)
  unmarshalFn : Option (UnmarshalFn T)

/-- `Tx.GetBytes(bucket, key, clone=true)` (tx.go:40): nil result when the
bucket is missing, `append([]byte(nil), b.Get(key)...)` otherwise.  It has no
error path at all. -/
def txGetBytes (e : Engine) (bucket key : String) : Bytes :=
  match lookupA e bucket with
  | none => []
  | some b => (lookupA b.data key).getD []

/-- `DB.GetBytes` (part_013:174): a `View` around `Tx.GetBytes` whose inner
closure always returns nil, so the error half is always nil. -/
def dbGetBytes {T : Type} (db : DBState T) (bucket key : String) : Bytes × Option DBErr :=
  (txGetBytes db.engine bucket key, none)

/-- `Tx.GetAny` (tx.go:72): missing bucket fails with `ErrBucketNotFound`;
otherwise the raw value (nil for a missing key) is cloned into a `*[]byte`
out, or unmarshaled (falling back to the default unmarshaler). -/
def txGetAny {T : Type} (du : UnmarshalFn T) (unm : Option (UnmarshalFn T))
    (e : Engine) (bucket key : String) (outBytes : Bool) : Except DBErr (GetOut T) :=
  match lookupA e bucket with
  | none => .error .bucketNotFound
  | some b =>
    let val := (lookupA b.data key).getD []
    if outBytes then .ok (.bytes val)
    else
      match (unm.getD du) val with
      | .error _ => .error .unmarshalFailed
      | .ok o => .ok (.obj o)

/-- `DB.Get` = `GetAny(bucket, key, out, db.unmarshalFn)` inside a `View`
(part_013:202,216).  `du` is the package-level `DefaultUnmarshalFn`. -/
def dbGet {T : Type} (du : UnmarshalFn T) (db : DBState T) (bucket key : String)
    (outBytes : Bool) : Except DBErr (GetOut T) :=
  txGetAny du db.unmarshalFn db.engine bucket key outBytes

/-- `DB.PutBytes` (part_013:188): write-through inside a write tx. -/
def dbPutBytes {T : Type} (db : DBState T) (bucket key : String) (val : Bytes) : DBState T :=
  { db with engine := enginePutBytes db.engine bucket key val }

/-- `DB.PutAny` (part_013:233): a `[]byte` value passes through unchanged;
anything else is marshaled (falling back to `DefaultMarshalFn` when the
given marshaler is nil) and the resulting bytes stored. -/
def dbPutAny {T : Type} (dm : MarshalFn T) (db : DBState T) (bucket key : String)
    (v : Val T) (m : Option (MarshalFn T)) : Except DBErr (DBState T) :=
  match v with
  | .bytes b => .ok (dbPutBytes db bucket key b)
  | .obj o =>
    match (m.getD dm) o with
    | .error _ => .error .marshalFailed
    | .ok b => .ok (dbPutBytes db bucket key b)

/-- `DB.Put` = `PutAny(bucket, key, val, db.marshalFn)` (part_013:206). -/
def dbPut {T : Type} (dm : MarshalFn T) (db : DBState T) (bucket key : String)
    (v : Val T) : Except DBErr (DBState T) :=
  dbPutAny dm db bucket key v db.marshalFn

/-- The marshaler `Put` effectively uses: `db.marshalFn` or the default. -/
def effMarshal {T : Type} (dm : MarshalFn T) (db : DBState T) : MarshalFn T :=
  db.marshalFn.getD dm

/-- The unmarshaler `Get` effectively uses: `db.unmarshalFn` or the default. -/
def effUnmarshal {T : Type} (du : UnmarshalFn T) (db : DBState T) : UnmarshalFn T :=
  db.unmarshalFn.getD du

theorem txGetAny_enginePutBytes {T : Type} (du : UnmarshalFn T) (unm : Option (UnmarshalFn T))
    (e : Engine) (bucket key : String) (val : Bytes) (ob : Bool) :
    txGetAny du unm (enginePutBytes e bucket key val) bucket key ob =
      (if ob then .ok (.bytes val)
       else
        match (unm.getD du) val with
        | .error _ => .error .unmarshalFailed
        | .ok o => .ok (.obj o)) := by
  unfold txGetAny enginePutBytes
  rw [lookupA_modifyA, lookupA_createBucket_self]
  simp [lookupA_insertA_self]

/-- C1: a successful `DB.Put(bucket, key, v)` followed by `DB.Get(bucket, key,
out)` on the same DB with the same marshal/unmarshal pair yields `out = v`;
when `v` is already a byte slice the stored bytes equal `v` unchanged, and
otherwise the stored bytes are the effective marshaler's output for `v` (so
the round-trip holds whenever that pair inverts on `v`). -/
theorem C1_put_get_roundtrip {T : Type} (dm : MarshalFn T) (du : UnmarshalFn T)
    (db db2 : DBState T) (bucket key : String) (v : Val T)
    (hput : dbPut dm db bucket key v = .ok db2) :
    (∀ b, v = .bytes b →
      getStored db2.engine bucket key = some b ∧
      dbGet du db2 bucket key true = .ok (.bytes b)) ∧
    (∀ o, v = .obj o →
      ∃ mb, effMarshal dm db o = .ok mb ∧
        getStored db2.engine bucket key = some mb ∧
        (effUnmarshal du db2 mb = .ok o →
          dbGet du db2 bucket key false = .ok (.obj o))) := by
  constructor
  · rintro b rfl
    unfold dbPut dbPutAny at hput
    simp only [Except.ok.injEq] at hput
    subst hput
    refine ⟨getStored_enginePutBytes_self _ _ _ _, ?_⟩
    unfold dbGet dbPutBytes
    rw [txGetAny_enginePutBytes]
    simp
  · rintro o rfl
    simp only [dbPut, dbPutAny] at hput
    cases hm : (db.marshalFn.getD dm) o with
    | error u => rw [hm] at hput; exact absurd hput (by simp)
    | ok mb =>
      rw [hm] at hput
      simp only [Except.ok.injEq] at hput
      subst hput
      refine ⟨mb, hm, getStored_enginePutBytes_self _ _ _ _, ?_⟩
      intro hu
      unfold dbGet dbPutBytes
      rw [txGetAny_enginePutBytes]
      unfold effUnmarshal dbPutBytes at hu
      simp only [if_neg Bool.false_ne_true]
      rw [hu]

/-- Concrete marshaler used by witnesses: a number marshals to the
singleton byte string holding it. -/
def marshalW : MarshalFn Nat := fun o => .ok [o]

/-- Concrete unmarshaler inverting `marshalW`. -/
def unmarshalW : UnmarshalFn Nat := fun b =>
  match b with
  | [o] => .ok o
  | _ => .error ()

/-- A fresh DB with no buckets and the default (nil) marshal pair. -/
def dbW : DBState Nat := ⟨[], none, none⟩

/-- `dbW` after storing the marshaled value of `3` under `b/k`. -/
def db2W : DBState Nat := dbPutBytes dbW "b" "k" [3]

theorem C1_put_get_roundtrip_witness :
    dbPut marshalW dbW "b" "k" (Val.obj 3) = .ok db2W ∧
    effMarshal marshalW dbW 3 = .ok [3] ∧
    getStored db2W.engine "b" "k" = some [3] ∧
    dbGet unmarshalW db2W "b" "k" false = .ok (.obj 3) := by
  have h := (C1_put_get_roundtrip marshalW unmarshalW dbW db2W "b" "k" (Val.obj 3)
    (by rfl)).2 3 rfl
  obtain ⟨mb, hm, hs, hg⟩ := h
  have hmb : [3] = mb := by
    simpa [effMarshal, marshalW, dbW] using hm
  subst hmb
  exact ⟨rfl, hm, hs, hg (by rfl)⟩

/-- C5 counterexample: on a DB with no buckets at all, `DB.GetBytes` returns
empty bytes with a nil error — it does not fail with bucket-not-found, because
`Tx.GetBytes` has no error path and `DB.GetBytes`'s `View` closure always
returns nil. -/
theorem C5_getBytes_counterexample :
    lookupA dbW.engine "b" = none ∧
    (dbGetBytes dbW "b" "k").2 = none ∧
    (dbGetBytes dbW "b" "k").2 ≠ some DBErr.bucketNotFound := by
  refine ⟨rfl, rfl, ?_⟩
  simp [dbGetBytes]

/-- C5 (amended): when the bucket does not exist, `DB.Get` fails with the
bucket-not-found error while `DB.GetBytes` returns empty bytes with no error;
when the bucket exists but the key does not, `DB.GetBytes` returns empty bytes
with no error and `DB.Get` returns the result of unmarshaling an empty
buffer. -/
theorem C5_missing_bucket_and_key {T : Type} (du : UnmarshalFn T) (db : DBState T)
    (bucket key : String) :
    (lookupA db.engine bucket = none →
      (∀ ob, dbGet du db bucket key ob = .error .bucketNotFound) ∧
      dbGetBytes db bucket key = ([], none)) ∧
    (∀ b, lookupA db.engine bucket = some b → lookupA b.data key = none →
      dbGetBytes db bucket key = ([], none) ∧
      dbGet du db bucket key false =
        (match effUnmarshal du db [] with
         | .error _ => .error .unmarshalFailed
         | .ok o => .ok (.obj o))) := by
  constructor
  · intro hb
    refine ⟨fun ob => ?_, ?_⟩
    · simp only [dbGet, txGetAny, hb]
    · simp only [dbGetBytes, txGetBytes, hb]
  · intro b hb hk
    refine ⟨?_, ?_⟩
    · simp only [dbGetBytes, txGetBytes, hb, hk, Option.getD_none]
    · simp only [dbGet, txGetAny, effUnmarshal, hb, hk, Option.getD_none]
      simp

/-- A DB holding one bucket `"a"` that contains only the key `"x"`. -/
def dbKW : DBState Nat := ⟨[("a", ⟨0, [("x", [1])]⟩)], none, none⟩

theorem C5_missing_bucket_and_key_witness :
    dbGet unmarshalW dbW "b" "k" true = .error .bucketNotFound ∧
    dbGet unmarshalW dbW "b" "k" false = .error .bucketNotFound ∧
    dbGetBytes dbW "b" "k" = ([], none) ∧
    dbGetBytes dbKW "a" "k" = ([], none) := by
  have h1 := (C5_missing_bucket_and_key unmarshalW dbW "b" "k").1 (by rfl)
  have h2 := (C5_missing_bucket_and_key unmarshalW dbKW "a" "k").2
    ⟨0, [("x", [1])]⟩ (by decide) (by decide)
  exact ⟨h1.1 true, h1.1 false, h1.2, h2.1⟩

/-! ## Sequence counters (part_013:253-283)

`NextIndex` runs in a write tx: `CreateBucketIfNotExists` then
`b.NextSequence()`.  Modelled from the spec: the engine's `NextSequence`
advances the bucket's monotonically increasing sequence counter by one and
returns the new value; a freshly created bucket starts at zero. -/

/-- Engine effect and return value of `DB.NextIndex(bucket)`. -/
def engineNextIndex (e : Engine) (bucket : String) : Nat × Engine :=
  match lookupA (createBucketIfNotExists e bucket) bucket with
  | none => (0, e)
  | some b =>
    (b.seq + 1,
      modifyA (createBucketIfNotExists e bucket) bucket
        (fun c => { c with seq := c.seq + 1 }))

/-- `DB.CurrentIndex(bucket)` (part_013:275): a read-only observation that
returns `b.Sequence()`, or 0 when the bucket does not exist. -/
def dbCurrentIndex (e : Engine) (bucket : String) : Nat :=
  match lookupA e bucket with
  | none => 0
  | some b => b.seq

/-- `n` consecutive `DB.NextIndex(bucket)` calls: the returned values in
order, and the final engine state. -/
def runNextIndex : Engine → String → Nat → List Nat × Engine
  | e, _, 0 => ([], e)
  | e, bucket, n + 1 =>
    let p := engineNextIndex e bucket
    let q := runNextIndex p.2 bucket n
    (p.1 :: q.1, q.2)

theorem engineNextIndex_fst (e : Engine) (bucket : String) :
    (engineNextIndex e bucket).1 = dbCurrentIndex e bucket + 1 := by
  unfold engineNextIndex
  rw [lookupA_createBucket_self]
  cases h : lookupA e bucket <;> simp [dbCurrentIndex, h]

theorem dbCurrentIndex_engineNextIndex (e : Engine) (bucket : String) :
    dbCurrentIndex (engineNextIndex e bucket).2 bucket = dbCurrentIndex e bucket + 1 := by
  unfold engineNextIndex
  rw [lookupA_createBucket_self]
  unfold dbCurrentIndex
  rw [lookupA_modifyA, lookupA_createBucket_self]
  cases h : lookupA e bucket <;> simp [h]

theorem runNextIndex_spec (bucket : String) (n : Nat) : ∀ e : Engine,
    (runNextIndex e bucket n).1 =
      (List.range n).map (fun i => dbCurrentIndex e bucket + i + 1) ∧
    dbCurrentIndex (runNextIndex e bucket n).2 bucket = dbCurrentIndex e bucket + n := by
  induction n with
  | zero => intro e; simp [runNextIndex]
  | succ n ih =>
    intro e
    obtain ⟨h1, h2⟩ := ih (engineNextIndex e bucket).2
    have hstep := dbCurrentIndex_engineNextIndex e bucket
    constructor
    · show (engineNextIndex e bucket).1 ::
        (runNextIndex (engineNextIndex e bucket).2 bucket n).1 = _
      rw [engineNextIndex_fst, h1, hstep, List.range_succ_eq_map, List.map_cons,
        List.map_map]
      refine congrArg₂ _ (by omega) (List.map_congr_left ?_)
      intro i _
      simp [Function.comp]
      omega
    · show dbCurrentIndex (runNextIndex (engineNextIndex e bucket).2 bucket n).2 bucket = _
      rw [h2, hstep]
      omega

/-- C4: every `DB.NextIndex(bucket)` call returns a value strictly greater
than every value it previously returned for that bucket, after the calls
`DB.CurrentIndex(bucket)` equals the most recently returned value, and
`CurrentIndex` returns 0 when the bucket does not exist. -/
theorem C4_next_current_index (e : Engine) (bucket : String) (n : Nat) :
    List.Pairwise (· < ·) (runNextIndex e bucket n).1 ∧
    (0 < n →
      (runNextIndex e bucket n).1.getLast? =
        some (dbCurrentIndex (runNextIndex e bucket n).2 bucket)) ∧
    (lookupA e bucket = none → dbCurrentIndex e bucket = 0) := by
  obtain ⟨h1, h2⟩ := runNextIndex_spec bucket n e
  refine ⟨?_, ?_, ?_⟩
  · rw [h1, List.pairwise_map]
    exact (List.pairwise_lt_range n).imp (fun h => by omega)
  · intro hn
    obtain ⟨m, rfl⟩ : ∃ m, n = m + 1 := ⟨n - 1, by omega⟩
    rw [h1, h2, List.range_succ, List.map_append]
    simp only [List.map_cons, List.map_nil, List.getLast?_concat, Option.some.injEq]
    omega
  · intro hb
    unfold dbCurrentIndex
    rw [hb]

theorem C4_next_current_index_witness :
    List.Pairwise (· < ·) (runNextIndex [] "b" 2).1 ∧
    (runNextIndex [] "b" 2).1.getLast? =
      some (dbCurrentIndex (runNextIndex [] "b" 2).2 "b") ∧
    dbCurrentIndex ([] : Engine) "b" = 0 := by
  obtain ⟨h1, h2, h3⟩ := C4_next_current_index [] "b" 2
  exact ⟨h1, h2 (by decide), h3 (by rfl)⟩

/-! ## Cache[T] (part_009)

`Cache[T].Update(fn)` runs `fn` in a write tx; on success it issues
`tx.PutValue(bucket, key, v)` inside the same tx and installs a deep clone of
`v` in the map; the sentinel `ErrDeleteKey` removes the key from the map after
the engine delete performed by `fn` and is translated to nil; any other error
aborts the tx, which rolls everything back.  A deep clone of a value is the
value itself in this pure model.  The engine effect of the caller-supplied
`fn` is modelled as the effects the package's own callers perform: `Put`'s
`fn` writes the same key/value that the wrapper re-writes (idempotent), and
`Delete`'s `fn` deletes the returned key. -/

theorem lookupA_removeA_ne {α : Type} (l : List (String × α)) (k k2 : String)
    (h : k2 ≠ k) : lookupA (removeA l k) k2 = lookupA l k2 := by
  induction l with
  | nil => simp [removeA]
  | cons hd tl ih =>
    obtain ⟨k3, v3⟩ := hd
    by_cases h3 : k3 = k
    · subst h3
      simp [removeA, lookupA, Ne.symm h, ih]
    · simp only [removeA, if_neg h3, lookupA]
      by_cases h4 : k3 = k2 <;> simp [h4, ih]

theorem getStored_enginePutBytes_ne (e : Engine) (bucket key : String) (val : Bytes)
    (k : String) (h : k ≠ key) :
    getStored (enginePutBytes e bucket key val) bucket k = getStored e bucket k := by
  unfold getStored enginePutBytes
  rw [lookupA_modifyA, lookupA_createBucket_self]
  cases hb : lookupA e bucket with
  | none => simp [lookupA_insertA_ne _ _ _ _ h, lookupA, Ne.symm h]
  | some b => simp [lookupA_insertA_ne _ _ _ _ h]

theorem getStored_engineDelete_ne (e : Engine) (bucket key k : String) (h : k ≠ key) :
    getStored (engineDelete e bucket key) bucket k = getStored e bucket k := by
  unfold getStored engineDelete
  cases hb : lookupA e bucket with
  | none => simp [hb]
  | some b =>
    simp only [lookupA_modifyA, hb]
    simp [lookupA_removeA_ne _ _ _ h]

/-- The result of the `fn` passed to `Cache.Update`: success, the
`ErrDeleteKey` sentinel, or any other (fatal) error. -/
inductive FnErr where
  | deleteKey
  | fail
  deriving Repr, DecidableEq

/-- A `Cache[T]` for one bucket: the in-memory map and the underlying
engine. -/
structure CacheState (T : Type) where
  m : List (String × T)
  engine : Engine

/-- `Cache.Update` (part_009:92): on `fn` success, `PutValue` then
`m.Set(key, clone v)`; on `ErrDeleteKey`, `fn` has deleted the key in the
engine and the map entry is removed, with the error translated to nil; any
other error aborts with the write tx rolled back (`NoBatch` only selects
`Update` vs `Batch`, identical here). -/
def cacheUpdateRun {T : Type} (em : MarshalFn T) (bucket : String) (st : CacheState T)
    (key : String) (v : T) (fnErr : Option FnErr) : CacheState T × Option FnErr :=
  match fnErr with
  | none =>
    match em v with
    | .error _ => (st, some .fail)
    | .ok b =>
      ({ m := insertA st.m key v, engine := enginePutBytes st.engine bucket key b }, none)
  | some .deleteKey =>
    ({ m := removeA st.m key, engine := engineDelete st.engine bucket key }, none)
  | some .fail => (st, some .fail)

/-- `Cache.Put` (part_009:70): `Update` with `fn = tx.PutValue(bucket, key, v)`
returning `(key, v, err)`; the in-tx duplicate write is idempotent. -/
def cachePut {T : Type} (em : MarshalFn T) (bucket : String) (st : CacheState T)
    (key : String) (v : T) : CacheState T × Option FnErr :=
  cacheUpdateRun em bucket st key v none

/-- One cache operation of a `Put`/`Update` call sequence. -/
inductive CacheOp (T : Type) where
  | putOp (key : String) (v : T)
  | updOp (key : String) (v : T) (fnErr : Option FnErr)

/-- Run a sequence of cache operations, threading the cache/engine state. -/
def runCacheOps {T : Type} (em : MarshalFn T) (bucket : String) :
    CacheState T → List (CacheOp T) → CacheState T
  | st, [] => st
  | st, .putOp k v :: rest => runCacheOps em bucket (cachePut em bucket st k v).1 rest
  | st, .updOp k v fe :: rest =>
    runCacheOps em bucket (cacheUpdateRun em bucket st k v fe).1 rest

/-- The write-through invariant: every entry in the cache map is backed by the
engine holding exactly its marshaled bytes for that key. -/
def writeThrough {T : Type} (em : MarshalFn T) (bucket : String) (st : CacheState T) : Prop :=
  ∀ k v, lookupA st.m k = some v →
    ∃ b, em v = .ok b ∧ getStored st.engine bucket k = some b

theorem writeThrough_cacheUpdateRun {T : Type} (em : MarshalFn T) (bucket : String)
    (st : CacheState T) (key : String) (v : T) (fnErr : Option FnErr)
    (h : writeThrough em bucket st) :
    writeThrough em bucket (cacheUpdateRun em bucket st key v fnErr).1 := by
  cases fnErr with
  | none =>
    unfold cacheUpdateRun
    cases hm : em v with
    | error u => exact h
    | ok b =>
      intro k w hw
      replace hw : lookupA (insertA st.m key v) k = some w := hw
      show ∃ bb, em w = .ok bb ∧
        getStored (enginePutBytes st.engine bucket key b) bucket k = some bb
      by_cases hk : k = key
      · subst hk
        rw [lookupA_insertA_self] at hw
        obtain rfl : v = w := by injection hw
        exact ⟨b, hm, getStored_enginePutBytes_self _ _ _ _⟩
      · rw [lookupA_insertA_ne _ _ _ _ hk] at hw
        obtain ⟨b2, hm2, hs2⟩ := h k w hw
        exact ⟨b2, hm2, by rw [getStored_enginePutBytes_ne _ _ _ _ _ hk]; exact hs2⟩
  | some fe =>
    cases fe with
    | deleteKey =>
      intro k w hw
      replace hw : lookupA (removeA st.m key) k = some w := hw
      show ∃ bb, em w = .ok bb ∧
        getStored (engineDelete st.engine bucket key) bucket k = some bb
      by_cases hk : k = key
      · subst hk
        rw [lookupA_removeA_self] at hw
        exact absurd hw (by simp)
      · rw [lookupA_removeA_ne _ _ _ hk] at hw
        obtain ⟨b2, hm2, hs2⟩ := h k w hw
        exact ⟨b2, hm2, by rw [getStored_engineDelete_ne _ _ _ _ hk]; exact hs2⟩
    | fail => exact h

/-- C3: over every sequence of `Cache[T].Put` and `Cache[T].Update`
operations, each entry in the cache map was written through to the engine
(the engine holds the marshaled bytes of the cached value), and a successful
write installs exactly the written value (its deep clone) in the map — the
cache never holds a dirty entry not yet written to the engine. -/
theorem C3_cache_write_through {T : Type} (em : MarshalFn T) (bucket : String)
    (st : CacheState T) (ops : List (CacheOp T)) (h : writeThrough em bucket st) :
    writeThrough em bucket (runCacheOps em bucket st ops) ∧
    (∀ st2 key v, cacheUpdateRun em bucket st key v none = (st2, none) →
      lookupA st2.m key = some v ∧
      ∃ b, em v = .ok b ∧ getStored st2.engine bucket key = some b) := by
  constructor
  · induction ops generalizing st with
    | nil => exact h
    | cons op rest ih =>
      cases op with
      | putOp k v =>
        exact ih (cachePut em bucket st k v).1
          (writeThrough_cacheUpdateRun em bucket st k v none h)
      | updOp k v fe =>
        exact ih (cacheUpdateRun em bucket st k v fe).1
          (writeThrough_cacheUpdateRun em bucket st k v fe h)
  · intro st2 key v hrun
    unfold cacheUpdateRun at hrun
    cases hm : em v with
    | error u =>
      rw [hm] at hrun
      replace hrun : (st, (some FnErr.fail : Option FnErr)) = (st2, none) := hrun
      injection hrun with h1 h2
      exact absurd h2 (by simp)
    | ok b =>
      rw [hm] at hrun
      replace hrun : ((⟨insertA st.m key v,
          enginePutBytes st.engine bucket key b⟩ : CacheState T),
          (none : Option FnErr)) = (st2, none) := hrun
      injection hrun with h1 h2
      subst h1
      exact ⟨lookupA_insertA_self _ _ _,
        b, rfl, getStored_enginePutBytes_self _ _ _ _⟩

theorem C3_cache_write_through_witness :
    writeThrough marshalW "b"
      (runCacheOps marshalW "b" ⟨[], []⟩
        [CacheOp.putOp "k" 5, CacheOp.updOp "k2" 7 none,
         CacheOp.updOp "k" 9 (some .deleteKey)]) :=
  (C3_cache_write_through marshalW "b" ⟨[], []⟩ _ (fun _ _ hh => nomatch hh)).1

end Mbbolt

namespace Rbolt

open Mbbolt

/-! ## The rbolt server (part_004)

Per-DB server transaction entries live in `Server.lock`; `checkLock` is the
idle watcher spawned by `txBegin`, `withTx` guards every tx-scoped handler.
Timestamps are `UnixNano` values, modelled as `Nat` (the watcher compares
`now − last` to `MaxUnusedLock`). -/

/-- Status of the engine write transaction begun for a DB name. -/
inductive TxStatus where
  | live
  | committed
  | rolledBack
  deriving Repr, DecidableEq

/-- The server state relevant to the lock lifecycle: the lock map (db name to
last-activity timestamp of its `serverTx` entry), the status of the engine tx
held by that entry, and the atomic counters. -/
structure SrvState where
  lock : List (String × Nat)
  engineTx : List (String × TxStatus)
  timeouts : Int
  activeLocks : Int
  locks : Int
  deriving Repr, DecidableEq

/-- `Server.txBegin` (part_004:458): begin a writable engine tx, store the
entry with `last = now` in the lock map, bump `Locks` and `ActiveLocks` (and
spawn `checkLock`). -/
def serverBegin (s : SrvState) (db : String) (now : Nat) : SrvState :=
  { s with
      lock := insertA s.lock db now,
      engineTx := insertA s.engineTx db .live,
      locks := s.locks + 1,
      activeLocks := s.activeLocks + 1 }

/-- One inspection by the `Server.checkLock` watcher (part_004:509): when the
entry is gone the loop exits (decrementing `ActiveLocks`); when
`now − last > MaxUnusedLock` it rolls the engine tx back, removes the entry,
increments `Timeouts`, breaks, and decrements `ActiveLocks`; otherwise it
sleeps and loops.  The returned flag is true when the goroutine exits. -/
def checkLockStep (maxUnusedLock now : Nat) (s : SrvState) (db : String) :
    SrvState × Bool :=
  match lookupA s.lock db with
  | none => ({ s with activeLocks := s.activeLocks - 1 }, true)
  | some last =>
    if now - last > maxUnusedLock then
      ({ s with
          engineTx := insertA s.engineTx db .rolledBack,
          lock := removeA s.lock db,
          timeouts := s.timeouts + 1,
          activeLocks := s.activeLocks - 1 }, true)
    else (s, false)

/-- Server-side errors of the tx-scoped request path. -/
inductive SrvErr where
  | notFound
  deriving Repr, DecidableEq

/-- `Server.withTx` (part_004:525): every tx-scoped operation looks the entry
up, fails with not-found when absent, optionally removes it (`commit` and
`rollback`), and refreshes its timestamp. -/
def withTx (s : SrvState) (db : String) (now : Nat) (rm : Bool) :
    Except SrvErr SrvState :=
  match lookupA s.lock db with
  | none => .error .notFound
  | some _ =>
    .ok { s with lock := if rm then removeA s.lock db else insertA s.lock db now }

/-- C2: after `begin(db)`, if no tx operation touches the entry for longer
than `MaxUnusedLock`, the idle watcher fires: it rolls back the engine tx,
removes the entry from the lock map, increments `Timeouts` by exactly 1,
decrements `ActiveLocks`, and exits; every subsequent tx-scoped operation on
that db returns not-found. -/
theorem C2_idle_lock_reaped (maxUnusedLock : Nat) (s : SrvState) (db : String)
    (now0 now : Nat) (hidle : now - now0 > maxUnusedLock) :
    (checkLockStep maxUnusedLock now (serverBegin s db now0) db).2 = true ∧
    lookupA (checkLockStep maxUnusedLock now (serverBegin s db now0) db).1.lock db
      = none ∧
    lookupA (checkLockStep maxUnusedLock now (serverBegin s db now0) db).1.engineTx db
      = some .rolledBack ∧
    (checkLockStep maxUnusedLock now (serverBegin s db now0) db).1.timeouts
      = (serverBegin s db now0).timeouts + 1 ∧
    (checkLockStep maxUnusedLock now (serverBegin s db now0) db).1.activeLocks
      = (serverBegin s db now0).activeLocks - 1 ∧
    ∀ now2 rm,
      withTx (checkLockStep maxUnusedLock now (serverBegin s db now0) db).1 db now2 rm
        = .error .notFound := by
  have hl : lookupA (serverBegin s db now0).lock db = some now0 :=
    lookupA_insertA_self _ _ _
  have hstep : checkLockStep maxUnusedLock now (serverBegin s db now0) db =
      ({ serverBegin s db now0 with
          engineTx := insertA (serverBegin s db now0).engineTx db .rolledBack,
          lock := removeA (serverBegin s db now0).lock db,
          timeouts := (serverBegin s db now0).timeouts + 1,
          activeLocks := (serverBegin s db now0).activeLocks - 1 }, true) := by
    unfold checkLockStep
    rw [hl]
    simp [hidle]
  rw [hstep]
  refine ⟨rfl, lookupA_removeA_self _ _, lookupA_insertA_self _ _ _, rfl, rfl, ?_⟩
  intro now2 rm
  unfold withTx
  simp [lookupA_removeA_self]

/-- The zero server state: no locks, no engine txs, zeroed counters. -/
def srv0 : SrvState := ⟨[], [], 0, 0, 0⟩

theorem C2_idle_lock_reaped_witness :
    lookupA (checkLockStep 5 10 (serverBegin srv0 "d" 0) "d").1.lock "d" = none ∧
    lookupA (checkLockStep 5 10 (serverBegin srv0 "d" 0) "d").1.engineTx "d"
      = some .rolledBack ∧
    (checkLockStep 5 10 (serverBegin srv0 "d" 0) "d").1.timeouts
      = (serverBegin srv0 "d" 0).timeouts + 1 ∧
    withTx (checkLockStep 5 10 (serverBegin srv0 "d" 0) "d").1 "d" 11 false
      = .error .notFound := by
  obtain ⟨h0, h1, h2, h3, h4, h5⟩ := C2_idle_lock_reaped 5 srv0 "d" 0 10 (by decide)
  exact ⟨h1, h2, h3, h5 11 false⟩

/-! ## Authorization middleware (part_004:418) -/

/-- What a request produces: either the middleware's 401 response, or the
routed handler's result. -/
inductive HandleResult (R : Type) where
  | unauthorized (status : Nat) (body : String)
  | handled (r : R)
  deriving Repr, DecidableEq

/-- The middleware installed by `Server.init`: when `AuthKey` is non-empty and
the request's `Authorization` header differs, it encodes status 401 with body
`"Unauthorized"`; otherwise the request proceeds to the route handler.
Modelled from the spec for the gserv collaborator: writing a response from a
middleware halts the chain, so the handler thunk is only forced on the
pass-through branch. -/
def serverHandle {R : Type} (authKey hdr : String) (route : Unit → R) : HandleResult R :=
  if authKey ≠ "" ∧ hdr ≠ authKey then .unauthorized 401 "Unauthorized"
  else .handled (route ())

/-- C6: with a non-empty `AuthKey` and a non-matching `Authorization` header
the server responds 401 `"Unauthorized"` and the route handler is not
executed (the result is the same whatever the handler is); with an empty
`AuthKey` or a matching header the request is dispatched to the handler. -/
theorem C6_auth_gate {R : Type} (authKey hdr : String) (route : Unit → R) :
    (authKey ≠ "" → hdr ≠ authKey →
      serverHandle authKey hdr route = .unauthorized 401 "Unauthorized" ∧
      ∀ route2 : Unit → R,
        serverHandle authKey hdr route = serverHandle authKey hdr route2) ∧
    ((authKey = "" ∨ hdr = authKey) →
      serverHandle authKey hdr route = .handled (route ())) := by
  constructor
  · intro h1 h2
    refine ⟨by simp [serverHandle, h1, h2], fun route2 => by simp [serverHandle, h1, h2]⟩
  · intro h
    rcases h with h | h <;> simp [serverHandle, h]

theorem C6_auth_gate_witness :
    serverHandle "secret" "wrong" (fun _ => (7 : Nat))
      = .unauthorized 401 "Unauthorized" ∧
    serverHandle "" "anything" (fun _ => (7 : Nat)) = .handled 7 ∧
    serverHandle "secret" "secret" (fun _ => (7 : Nat)) = .handled 7 :=
  ⟨((C6_auth_gate "secret" "wrong" (fun _ => (7 : Nat))).1 (by decide) (by decide)).1,
    (C6_auth_gate "" "anything" (fun _ => (7 : Nat))).2 (Or.inl rfl),
    (C6_auth_gate "secret" "secret" (fun _ => (7 : Nat))).2 (Or.inr rfl)⟩

/-! ## The rbolt client transaction (client.go)

The client keeps a per-db, per-bucket value cache (`LMultiMap`); a `Tx`
records deferred cache-update thunks in `updates`.  `serverOk` models the
outcome of the HTTP round-trip performed by `Client.do`. -/

/-- The client's per-db cache: bucket → key → decoded value. -/
abbrev CCache (T : Type) := List (String × List (String × T))

/-- `LMultiMap.Set(bucket, key, v)`. -/
def cacheSet {T : Type} (c : CCache T) (bucket key : String) (v : T) : CCache T :=
  insertA c bucket (insertA ((lookupA c bucket).getD []) key v)

/-- `LMultiMap.DeleteChild(bucket, key)`: a no-op when the bucket is absent. -/
def cacheDeleteChild {T : Type} (c : CCache T) (bucket key : String) : CCache T :=
  match lookupA c bucket with
  | none => c
  | some m => insertA c bucket (removeA m key)

/-- A deferred cache-update thunk recorded by `Tx.Put` / `Tx.Delete`. -/
inductive CThunk (T : Type) where
  | setTh (bucket key : String) (v : T)
  | delTh (bucket key : String)
  deriving Repr, DecidableEq

/-- Running one recorded thunk against the client cache. -/
def applyThunk {T : Type} (c : CCache T) (t : CThunk T) : CCache T :=
  match t with
  | .setTh b k v => cacheSet c b k v
  | .delTh b k => cacheDeleteChild c b k

/-- Client-side state for one transaction: the per-db cache, whether
`c.locks[db]` still maps to this `Tx`, and the recorded thunks. -/
structure ClientSt (T : Type) where
  cache : CCache T
  locked : Bool
  updates : List (CThunk T)

/-- Client-side errors. -/
inductive CliErr where
  | transport
  | noLock
  deriving Repr, DecidableEq

/-- `Tx.Put` (client.go:186): on server success, append a cache-set thunk and
return nil; on failure return the error, recording nothing. -/
def ctxPut {T : Type} (serverOk : Bool) (st : ClientSt T) (bucket key : String)
    (v : T) : ClientSt T × Option CliErr :=
  if serverOk then ({ st with updates := st.updates ++ [.setTh bucket key v] }, none)
  else (st, some .transport)

/-- `Tx.Delete` (client.go:196): on server success, append a cache-delete
thunk; on failure, `return nil` discards the error and records nothing — the
result is nil either way. -/
def ctxDelete {T : Type} (serverOk : Bool) (st : ClientSt T) (bucket key : String) :
    ClientSt T × Option CliErr :=
  if serverOk then ({ st with updates := st.updates ++ [.delTh bucket key] }, none)
  else (st, none)

/-- `Tx.Commit` (client.go:206): atomically verify and release lock ownership
(else `no lock`), send `commitTx` to the server (a failure returns before any
thunk runs), then run the recorded thunks in order. -/
def ctxCommit {T : Type} (serverOk : Bool) (st : ClientSt T) :
    ClientSt T × Option CliErr :=
  if !st.locked then (st, some .noLock)
  else if !serverOk then ({ st with locked := false }, some .transport)
  else ({ st with locked := false, cache := st.updates.foldl applyThunk st.cache }, none)

/-- `Tx.Rollback` (client.go:225): release ownership and send `rollbackTx`;
the recorded thunks are never run. -/
def ctxRollback {T : Type} (serverOk : Bool) (st : ClientSt T) :
    ClientSt T × Option CliErr :=
  if !st.locked then (st, some .noLock)
  else ({ st with locked := false }, if serverOk then none else some .transport)

/-- One server-successful tx operation. -/
inductive TxOp (T : Type) where
  | putOp (bucket key : String) (v : T)
  | delOp (bucket key : String)

/-- The thunk a tx operation records. -/
def opThunk {T : Type} : TxOp T → CThunk T
  | .putOp b k v => .setTh b k v
  | .delOp b k => .delTh b k

/-- Run a sequence of server-successful `Tx.Put` / `Tx.Delete` calls. -/
def runTxOps {T : Type} : ClientSt T → List (TxOp T) → ClientSt T
  | st, [] => st
  | st, .putOp b k v :: rest => runTxOps (ctxPut true st b k v).1 rest
  | st, .delOp b k :: rest => runTxOps (ctxDelete true st b k).1 rest

theorem runTxOps_spec {T : Type} (ops : List (TxOp T)) : ∀ st : ClientSt T,
    (runTxOps st ops).cache = st.cache ∧
    (runTxOps st ops).updates = st.updates ++ ops.map opThunk ∧
    (runTxOps st ops).locked = st.locked := by
  induction ops with
  | nil => intro st; simp [runTxOps]
  | cons op rest ih =>
    intro st
    cases op with
    | putOp b k v =>
      obtain ⟨h1, h2, h3⟩ := ih (ctxPut true st b k v).1
      simp only [runTxOps]
      refine ⟨h1, ?_, h3⟩
      rw [h2]
      simp [ctxPut, opThunk]
    | delOp b k =>
      obtain ⟨h1, h2, h3⟩ := ih (ctxDelete true st b k).1
      simp only [runTxOps]
      refine ⟨h1, ?_, h3⟩
      rw [h2]
      simp [ctxDelete, opThunk]

/-- C7: server-successful `Tx.Put` and `Tx.Delete` record deferred thunks
without touching the client cache; `Tx.Commit` (after the server acknowledges)
runs all recorded thunks once, in order, and only then is the cache modified;
`Tx.Rollback` discards them, leaving the cache exactly as before. -/
theorem C7_deferred_cache_updates {T : Type} (st : ClientSt T) (ops : List (TxOp T)) :
    (runTxOps st ops).cache = st.cache ∧
    (runTxOps st ops).updates = st.updates ++ ops.map opThunk ∧
    (st.locked = true →
      (ctxCommit true (runTxOps st ops)).1.cache
        = (st.updates ++ ops.map opThunk).foldl applyThunk st.cache ∧
      ∀ okr, (ctxRollback okr (runTxOps st ops)).1.cache = st.cache) := by
  obtain ⟨h1, h2, h3⟩ := runTxOps_spec ops st
  refine ⟨h1, h2, fun hl => ?_⟩
  have hl2 : (runTxOps st ops).locked = true := h3.trans hl
  refine ⟨?_, fun okr => ?_⟩
  · simp [ctxCommit, hl2, h1, h2]
  · simp [ctxRollback, hl2, h1]

/-- A locked client tx over a cache holding `b/k = 3`, with no thunks yet. -/
def cst0 : ClientSt Nat := ⟨[("b", [("k", 3)])], true, []⟩

/-- A two-operation tx trace used by the C7 witness. -/
def opsW : List (TxOp Nat) := [.putOp "b" "k" 1, .delOp "b" "k2"]

theorem C7_deferred_cache_updates_witness :
    (runTxOps cst0 opsW).cache = cst0.cache ∧
    (runTxOps cst0 opsW).updates = cst0.updates ++ opsW.map opThunk ∧
    (ctxCommit true (runTxOps cst0 opsW)).1.cache
      = (cst0.updates ++ opsW.map opThunk).foldl applyThunk cst0.cache ∧
    (ctxRollback false (runTxOps cst0 opsW)).1.cache = cst0.cache := by
  obtain ⟨h1, h2, h3⟩ := C7_deferred_cache_updates cst0 opsW
  obtain ⟨h4, h5⟩ := h3 rfl
  exact ⟨h1, h2, h4, h5 false⟩

/-- C10: `Tx.Delete` always returns nil, also when the HTTP DELETE fails; in
the failure case the error is discarded, the state (including the recorded
thunks) is untouched, and a subsequent `Tx.Commit` does not remove the key
from the client cache. -/
theorem C10_delete_swallows_error {T : Type} (st : ClientSt T) (bucket key : String)
    (serverOk : Bool) :
    (ctxDelete serverOk st bucket key).2 = none ∧
    (serverOk = false → (ctxDelete serverOk st bucket key).1 = st) ∧
    (serverOk = false → st.locked = true → st.updates = [] →
      (ctxCommit true (ctxDelete serverOk st bucket key).1).1.cache = st.cache) := by
  refine ⟨?_, fun hs => ?_, fun hs hl hu => ?_⟩
  · cases serverOk <;> simp [ctxDelete]
  · subst hs; simp [ctxDelete]
  · subst hs
    simp [ctxDelete, ctxCommit, hl, hu]

theorem C10_delete_swallows_error_witness :
    (ctxDelete false cst0 "b" "k").2 = none ∧
    (ctxDelete false cst0 "b" "k").1 = cst0 ∧
    (ctxCommit true (ctxDelete false cst0 "b" "k").1).1.cache = cst0.cache := by
  obtain ⟨h1, h2, h3⟩ := C10_delete_swallows_error cst0 "b" "k" false
  exact ⟨h1, h2 rfl, h3 rfl rfl rfl⟩

/-! ## ForEach streaming (client.go:251, part_004:660)

The journaled server's `forEach` encodes one `[key, value]` frame per pair in
the bucket and nothing else; the stream ends when the response body closes
(the client's decoder yields `io.EOF`).  The client's `ForEach[T]` decodes
frames until EOF; a frame with an empty key is skipped with `continue`;
every other frame is unmarshaled, installed in the per-db cache, and handed
to the user callback. -/

/-- One decoded `[2][]byte` frame: the key (as a string) and the raw value. -/
abbrev Frame := String × Bytes

/-- The client `ForEach[T]` decode loop (client.go:251): returns the final
cache, the ordered list of callback invocations, and the error outcome
(none models the `io.EOF` return nil). -/
def clientForEach {T : Type} (unm : Bytes → Except Unit T)
    (cb : String → T → Option Unit) (bucket : String) :
    List Frame → CCache T → CCache T × List (String × T) × Option Unit
  | [], c => (c, [], none)
  | (k, vb) :: rest, c =>
    if k = "" then clientForEach unm cb bucket rest c
    else
      match unm vb with
      | .error _ => (c, [], some ())
      | .ok v =>
        match cb k v with
        | some _ => (cacheSet c bucket k v, [(k, v)], some ())
        | none =>
          let r := clientForEach unm cb bucket rest (cacheSet c bucket k v)
          (r.1, (k, v) :: r.2.1, r.2.2)

/-- The frame stream the journaled `Server.forEach` (part_004:660) produces:
one frame per bucket entry in engine order, and no end-of-list marker (a
missing bucket makes `ForEachBytes` fail before anything is encoded). -/
def serverForEachFrames (e : Engine) (bucket : String) : List Frame :=
  match lookupA e bucket with
  | none => []
  | some b => b.data

/-- C8 counterexample: the client does not treat an empty-key frame as an
end-of-stream marker — a data frame after it is still decoded, cached and
handed to the callback, so iteration did not terminate there. -/
theorem C8_empty_key_counterexample :
    (clientForEach unmarshalW (fun _ _ => none) "b" [("", []), ("a", [5])] []).2.1
      = [("a", 5)] ∧
    (clientForEach unmarshalW (fun _ _ => none) "b" [("", []), ("a", [5])] []).2.2
      = none := by
  constructor <;> rfl

theorem clientForEach_spec {T : Type} (unm : Bytes → Except Unit T)
    (cb : String → T → Option Unit) (bucket : String) (dec : Frame → T)
    (hcb : ∀ k v, cb k v = none) :
    ∀ (frames : List Frame) (cache : CCache T),
      (∀ f ∈ frames, unm f.2 = .ok (dec f)) →
      clientForEach unm cb bucket frames cache =
        ((frames.filter (fun f => !(f.1 == ""))).foldl
            (fun c f => cacheSet c bucket f.1 (dec f)) cache,
          (frames.filter (fun f => !(f.1 == ""))).map (fun f => (f.1, dec f)),
          none) := by
  intro frames
  induction frames with
  | nil => intro cache _; simp [clientForEach]
  | cons f rest ih =>
    intro cache hdec
    obtain ⟨k, vb⟩ := f
    by_cases hk : k = ""
    · subst hk
      simp only [clientForEach, if_pos rfl]
      rw [ih cache (fun g hg => hdec g (List.mem_cons_of_mem _ hg))]
      simp
    · have hd := hdec (k, vb) (List.mem_cons_self _ _)
      simp only [clientForEach, if_neg hk]
      simp only [hd, hcb]
      rw [ih (cacheSet cache bucket k (dec (k, vb)))
        (fun g hg => hdec g (List.mem_cons_of_mem _ hg))]
      simp [List.filter_cons, hk]

/-- C8 (amended): the client decodes frames in order until the stream ends
(EOF); a frame with an empty key is skipped rather than terminating the
iteration; every other frame's decoded value is installed in the client cache
and the user callback is invoked with that key and value, in stream order.
The cited server `forEach` emits exactly the bucket's entries as frames (and
never an empty key, bolt keys being non-empty), so on a server stream every
frame is processed this way. -/
theorem C8_foreach_stream {T : Type} (unm : Bytes → Except Unit T)
    (cb : String → T → Option Unit) (bucket : String) (dec : Frame → T)
    (frames : List Frame) (cache : CCache T)
    (hdec : ∀ f ∈ frames, unm f.2 = .ok (dec f))
    (hcb : ∀ k v, cb k v = none) :
    clientForEach unm cb bucket frames cache =
      ((frames.filter (fun f => !(f.1 == ""))).foldl
          (fun c f => cacheSet c bucket f.1 (dec f)) cache,
        (frames.filter (fun f => !(f.1 == ""))).map (fun f => (f.1, dec f)),
        none) ∧
    (∀ (e : Engine) (b : Mbbolt.Bucket), lookupA e bucket = some b →
      (∀ p ∈ b.data, ¬ p.1 = "") →
      (serverForEachFrames e bucket).filter (fun f => !(f.1 == "")) = b.data) ∧
    (∀ e : Engine, lookupA e bucket = none → serverForEachFrames e bucket = []) := by
  refine ⟨clientForEach_spec unm cb bucket dec hcb frames cache hdec, ?_, ?_⟩
  · intro e b hb hkeys
    unfold serverForEachFrames
    rw [hb]
    exact List.filter_eq_self.mpr (fun p hp => by simpa using hkeys p hp)
  · intro e hb
    unfold serverForEachFrames
    rw [hb]

/-- The callback used by the C8 witness: always succeeds. -/
def cbW : String → Nat → Option Unit := fun _ _ => none

/-- The decode function used by the C8 witness, inverting `marshalW` framewise. -/
def decW : Frame → Nat := fun f =>
  match f.2 with
  | [o] => o
  | _ => 0

theorem C8_foreach_stream_witness :
    clientForEach unmarshalW cbW "b" [("a", [5]), ("c", [7])] []
      = (([("a", [5]), ("c", [7])].filter (fun f => !(f.1 == ""))).foldl
          (fun c f => cacheSet c "b" f.1 (decW f)) [],
        ([("a", [5]), ("c", [7])].filter (fun f => !(f.1 == ""))).map
          (fun f => (f.1, decW f)),
        none) :=
  (C8_foreach_stream unmarshalW cbW "b" decW [("a", [5]), ("c", [7])] []
    (by simp [List.forall_mem_cons, unmarshalW, decW]) (fun _ _ => rfl)).1

end Rbolt

namespace Mbbolt

/-! ## MultiDB backup (multi.go:551, 598)

`db.Backup` hands back the number of bytes the engine's `tx.WriteTo` wrote,
or an error; a per-DB result is modelled as `Option Nat` (`none` = backup
error).  Both `MultiDB.Backup` and `MultiDB.BackupToDir` accumulate `n += n2`
over the selected DBs yet their success paths return the literal `0, nil`. -/

/-- The shared accumulation loop of `MultiDB.Backup` / `MultiDB.BackupToDir`:
on a per-DB error return the bytes so far plus the error; after the loop,
`return 0, nil`. -/
def mdbBackupLoop : Nat → List (Option Nat) → Nat × Option Unit
  | _, [] => (0, none)
  | n, some k :: rest => mdbBackupLoop (n + k) rest
  | n, none :: _ => (n, some ())

/-- `MultiDB.Backup(w, filter)` (multi.go:598) over the per-DB results. -/
def mdbBackup (results : List (Option Nat)) : Nat × Option Unit :=
  mdbBackupLoop 0 results

/-- `MultiDB.BackupToDir(dir, filter)` (multi.go:551) over the per-DB
results: the same accumulation and the same `return 0, nil` success path. -/
def mdbBackupToDir (results : List (Option Nat)) : Nat × Option Unit :=
  mdbBackupLoop 0 results

theorem mdbBackupLoop_ok (results : List (Option Nat)) (h : ∀ r ∈ results, r ≠ none) :
    ∀ n, mdbBackupLoop n results = (0, none) := by
  induction results with
  | nil => intro n; rfl
  | cons r rest ih =>
    intro n
    cases r with
    | none => exact absurd rfl (h none (List.mem_cons_self _ _))
    | some k => exact ih (fun x hx => h x (List.mem_cons_of_mem _ hx)) (n + k)

/-- C9: when every per-DB backup succeeds, `MultiDB.Backup` and
`MultiDB.BackupToDir` return the byte count 0 regardless of how many bytes
were actually written. -/
theorem C9_backup_returns_zero (results : List (Option Nat))
    (h : ∀ r ∈ results, r ≠ none) :
    mdbBackup results = (0, none) ∧ mdbBackupToDir results = (0, none) :=
  ⟨mdbBackupLoop_ok results h 0, mdbBackupLoop_ok results h 0⟩

theorem C9_backup_returns_zero_witness :
    mdbBackup [some 5, some 7] = (0, none) ∧
    mdbBackupToDir [some 5, some 7] = (0, none) :=
  C9_backup_returns_zero [some 5, some 7] (by decide)

end Mbbolt
